import Mathlib

/-!
Shallow embedding of `src/main.rs` of the `divisioner` repository.

The program enumerates files matching a glob pattern, splits the resulting
ordered list into chunks of `file_count_per_file` entries (`divide_files`,
built on Rust's `slice::chunks`), writes each chunk into its own zip archive
`<dst-basename>_<i>.zip` under `<dst>/zip/`, and records one CSV row per
archived file in `<dst>/results.csv`.

The embedding models paths as lists of components, file contents as lists of
bytes (`Nat`), and the effectful `main` as a pure function from an abstract
description of the world at startup (`RunInput`) to a `RunResult`. I/O
failures that the structure of the code cannot predict (unreadable files,
full disk, ...) are abstracted away; the structurally determined outcomes
(the non-empty-destination guard, the missing `zip` subdirectory, the panic
of `chunks(0)`) are modelled explicitly.
-/

namespace Divisioner

/-- A file found by the enumerator (`search_files`): its path, as a list of
components (mirroring `PathBuf`), and its byte content at read time. -/
structure FileEntry where
  path : List String
  content : List Nat
  deriving DecidableEq

/-- `PathBuf::file_name().unwrap().to_str().unwrap()` — the last path
component (lines 93 and 101 of `main.rs`). The `unwrap` panics are outside
the model: we return `""` for an empty component list. -/
def fileName (f : FileEntry) : String :=
  f.path.getLastD ""

/-- Embedding of `get_file_as_byte_vec` (lines 36–42 of `main.rs`):

    let mut f = File::open(&filename)?;
    let metadata = fs::metadata(&filename)?;
    let mut buffer = vec![0; metadata.len() as usize];
    f.read(&mut buffer)?;
    Ok(buffer)

The buffer is sized to the file length and zero-filled, then a SINGLE
`Read::read` call is made and its return value (the number of bytes
actually read) is discarded. Per the `Read` contract that call may fill
any prefix of the buffer: `bytesRead` is that number (the I/O errors of
`open`/`metadata`/`read`, which abort the run, are abstracted away; a
short read is NOT an error in this code). The function returns the buffer:
the first `bytesRead` bytes of the file followed by zero padding. -/
def get_file_as_byte_vec (content : List Nat) (bytesRead : Nat) : List Nat :=
  content.take bytesRead ++ List.replicate (content.length - bytesRead) 0

/-- Rust's `as usize` cast from `i32` (line 74 of `main.rs`,
`args.file_count_per_file as usize`): two's-complement reinterpretation
modulo 2^64 on a 64-bit target, so negative values wrap to huge numbers. -/
def i32ToUsize (k : Int) : Nat :=
  (k % (2 : Int) ^ 64).toNat

/-- Embedding of `slice::chunks(k)`: contiguous chunks of `k` elements, the
last chunk possibly shorter. For `k ≥ 1`, `a :: l.take (k - 1)` is
`(a :: l).take k` and `l.drop (k - 1)` is `(a :: l).drop k`. The `k = 0`
case never reaches this function (see `divide_files`). -/
def chunksList {α : Type} (k : Nat) : List α → List (List α)
  | [] => []
  | a :: l => (a :: l.take (k - 1)) :: chunksList k (l.drop (k - 1))
termination_by l => l.length
decreasing_by simp [List.length_drop]; omega

/-- Embedding of `divide_files` (lines 55–60 of `main.rs`):

    files.chunks(file_count).map(|chunk| chunk.to_vec()).collect()

`slice::chunks` panics when `file_count == 0` ("chunk size must be
non-zero"); the panic is modelled as `none`. -/
def divide_files {α : Type} (files : List α) (file_count : Nat) :
    Option (List (List α)) :=
  if file_count = 0 then none else some (chunksList file_count files)

/-- The archive file name of partition `i` (line 93 of `main.rs`):
`format!("{}_{}.zip", dst.file_name()..., i)`. -/
def archiveFileName (dstBase : String) (i : Nat) : String :=
  dstBase ++ "_" ++ toString i ++ ".zip"

/-- The string written in the `zip` column of the manifest row for a file of
partition `i` (line 104 of `main.rs`): `format!("{}.zip", i)`. -/
def manifestArchiveField (i : Nat) : String :=
  toString i ++ ".zip"

/-- Compression methods of the `zip` crate that this program can name. -/
inductive CompressionMethod where
  | stored
  | deflated
  deriving DecidableEq

/-- One entry written into a zip archive: its name inside the archive, its
byte payload, and the options it was written with (lines 97–103). -/
structure Entry where
  name : String
  data : List Nat
  method : CompressionMethod
  unixPermissions : Nat
  deriving DecidableEq

/-- One finalized archive: its file name, its path relative to the
destination directory (as components), and its entries in write order. -/
structure Archive where
  name : String
  path : List String
  entries : List Entry
  deriving DecidableEq

/-- Default used with `List.getD` on archive lists. -/
def dummyArchive : Archive :=
  { name := "", path := [], entries := [] }

/-- Abstract state of the world when `main` starts: whether `dst.is_dir()`
holds, whether `dst.read_dir()` yields at least one entry, the last path
component of `dst`, the ordered file list returned by `search_files`, and
the raw `i32` value of `--file-count-per-file`. -/
structure RunInput where
  dstExists : Bool
  dstNonempty : Bool
  dstBase : String
  files : List FileEntry
  file_count_per_file : Int

/-- Outcome of a run of `main`:
`okGuard msg`: the early `return Ok(())` of the non-empty-destination guard
(lines 66–69), with the printed message — nothing is written;
`panicked msg`: a Rust panic (`chunks(0)`);
`ioError i`: `File::create` of the archive of partition `i` under
`<dst>/zip/` returned `Err` and `?` propagated it (line 95);
`ok archives manifest`: normal completion with the finalized archives and
the full record list of `results.csv`, header row included. -/
inductive RunResult where
  | okGuard (message : String)
  | panicked (message : String)
  | ioError (partitionIndex : Nat)
  | ok (archives : List Archive) (manifest : List (String × String))
  deriving DecidableEq

/-- The entry written for one file (lines 97–103): name from
`item.file_name()`, options `FileOptions::default()
.compression_method(Stored).unix_permissions(0o755)`, data from
`get_file_as_byte_vec`; `bytesRead f` is the count returned by the single
`read` call for file `f`. -/
def mkEntry (bytesRead : FileEntry → Nat) (f : FileEntry) : Entry :=
  { name := fileName f
    data := get_file_as_byte_vec f.content (bytesRead f)
    method := CompressionMethod.stored
    unixPermissions := 0o755 }

/-- The archives produced by the loop of lines 91–109 for the partitions
`blocks`, the first having partition index `i`: each is created at
`dst.join("zip").join(filename)` (line 94) and holds one entry per file of
its partition, in order. -/
def buildArchives (dstBase : String) (bytesRead : FileEntry → Nat) :
    Nat → List (List FileEntry) → List Archive
  | _, [] => []
  | i, block :: rest =>
    { name := archiveFileName dstBase i
      path := ["zip", archiveFileName dstBase i]
      entries := block.map (mkEntry bytesRead) }
      :: buildArchives dstBase bytesRead (i + 1) rest

/-- The manifest rows written by the loop (line 104), one per file right
after its entry is written, for the partitions `blocks`, the first having
partition index `i`. -/
def buildManifest : Nat → List (List FileEntry) → List (String × String)
  | _, [] => []
  | i, block :: rest =>
    block.map (fun f => (manifestArchiveField i, fileName f))
      ++ buildManifest (i + 1) rest

/-- Lines 73–110 of `main`: search, divide, create `results.csv`, write the
header record `["zip", "filename"]`, then the partition loop.
`zipDirExists` records whether `<dst>/zip` exists when the loop starts: the
loop's `File::create(dst.join("zip").join(filename))` succeeds only then,
and the loop touches it only when there is at least one partition. -/
def runPipeline (inp : RunInput) (bytesRead : FileEntry → Nat)
    (zipDirExists : Bool) : RunResult :=
  match divide_files inp.files (i32ToUsize inp.file_count_per_file) with
  | none => RunResult.panicked "chunk size must be non-zero"
  | some divided =>
    if !zipDirExists && !divided.isEmpty then RunResult.ioError 0
    else
      RunResult.ok (buildArchives inp.dstBase bytesRead 0 divided)
        (("zip", "filename") :: buildManifest 0 divided)

/-- Embedding of `main` (lines 62–111): the destination guard of lines
65–72 — if `dst.is_dir()` and it is non-empty, print and return `Ok`;
if `dst.is_dir()` and it is empty, fall through WITHOUT creating anything
(so `<dst>/zip` does not exist); only if `dst` does not exist is
`fs::create_dir_all(dst.join("zip"))` run — then the pipeline. -/
def main (inp : RunInput) (bytesRead : FileEntry → Nat) : RunResult :=
  if inp.dstExists then
    if inp.dstNonempty then RunResult.okGuard "Destination folder is not empty."
    else runPipeline inp bytesRead false
  else runPipeline inp bytesRead true

/-! ### Basic lemmas about `chunksList` -/

theorem chunksList_nil {α : Type} (k : Nat) :
    chunksList k ([] : List α) = [] := by
  simp [chunksList]

theorem chunksList_cons {α : Type} (k : Nat) (a : α) (l : List α) :
    chunksList k (a :: l) = (a :: l.take (k - 1)) :: chunksList k (l.drop (k - 1)) := by
  rw [chunksList]

theorem chunksList_ne_nil {α : Type} (k : Nat) (l : List α) (hl : l ≠ []) :
    chunksList k l ≠ [] := by
  cases l with
  | nil => exact absurd rfl hl
  | cons a t => rw [chunksList_cons]; exact List.cons_ne_nil _ _

theorem chunksList_flatten {α : Type} (k : Nat) (l : List α) :
    (chunksList k l).flatten = l := by
  match l with
  | [] => simp [chunksList]
  | a :: t =>
    rw [chunksList_cons, List.flatten_cons, chunksList_flatten k (t.drop (k - 1))]
    simp
termination_by l.length
decreasing_by simp [List.length_drop]; omega

theorem chunksList_length {α : Type} (k : Nat) (hk : 0 < k) (l : List α) :
    (chunksList k l).length = (l.length + k - 1) / k := by
  match l with
  | [] =>
    rw [chunksList_nil]
    have h3 : (0 + k - 1) / k = 0 := Nat.div_eq_of_lt (by omega)
    simpa using h3.symm
  | a :: t =>
    rw [chunksList_cons]
    simp only [List.length_cons]
    rw [chunksList_length k hk (t.drop (k - 1))]
    simp only [List.length_drop]
    have h2 : t.length + 1 + k - 1 = t.length + k := by omega
    rw [h2, Nat.add_div_right _ hk]
    rcases Nat.lt_or_ge t.length (k - 1) with h | h
    · have h1 : t.length - (k - 1) = 0 := by omega
      rw [h1]
      have h3 : (0 + k - 1) / k = 0 := Nat.div_eq_of_lt (by omega)
      have h4 : t.length / k = 0 := Nat.div_eq_of_lt (by omega)
      omega
    · have h1 : t.length - (k - 1) + k - 1 = t.length := by omega
      rw [h1]
termination_by l.length
decreasing_by simp [List.length_drop]; omega

theorem chunksList_getD_length {α : Type} (k : Nat) (hk : 0 < k) (l : List α)
    (i : Nat) (hi : i < (chunksList k l).length) :
    ((chunksList k l).getD i []).length = min k (l.length - i * k) := by
  match l, i with
  | [], i => rw [chunksList_nil] at hi; simp at hi
  | a :: t, 0 =>
    rw [chunksList_cons]
    rw [List.getD_cons_zero]
    simp [List.length_take]
    omega
  | a :: t, i + 1 =>
    rw [chunksList_cons] at hi ⊢
    rw [List.getD_cons_succ]
    have hi2 : i < (chunksList k (t.drop (k - 1))).length := by
      simpa using hi
    rw [chunksList_getD_length k hk (t.drop (k - 1)) i hi2]
    simp only [List.length_drop, List.length_cons]
    have hmul : (i + 1) * k = i * k + k := by ring
    rw [hmul]
    generalize i * k = c
    omega
termination_by l.length
decreasing_by all_goals simp [List.length_drop]; omega

/-! ### Inversion lemmas for successful runs -/

theorem divide_files_eq_some {α : Type} {files : List α} {k : Nat}
    {divided : List (List α)} (h : divide_files files k = some divided) :
    divided = chunksList k files ∧ k ≠ 0 := by
  by_cases hk : k = 0
  · rw [divide_files, if_pos hk] at h; cases h
  · rw [divide_files, if_neg hk] at h
    exact ⟨(Option.some.injEq _ _ ▸ h).symm, hk⟩

theorem runPipeline_ok_inv {inp : RunInput} {bytesRead : FileEntry → Nat}
    {z : Bool} {archives : List Archive} {manifest : List (String × String)}
    (h : runPipeline inp bytesRead z = RunResult.ok archives manifest) :
    ∃ divided,
      divide_files inp.files (i32ToUsize inp.file_count_per_file) = some divided ∧
      archives = buildArchives inp.dstBase bytesRead 0 divided ∧
      manifest = ("zip", "filename") :: buildManifest 0 divided := by
  unfold runPipeline at h
  split at h
  next hdiv => cases h
  next divided hdiv =>
    split at h
    next => cases h
    next hc =>
      injection h with h1 h2
      exact ⟨divided, hdiv, h1.symm, h2.symm⟩

theorem main_ok_inv {inp : RunInput} {bytesRead : FileEntry → Nat}
    {archives : List Archive} {manifest : List (String × String)}
    (h : main inp bytesRead = RunResult.ok archives manifest) :
    ∃ divided,
      divide_files inp.files (i32ToUsize inp.file_count_per_file) = some divided ∧
      archives = buildArchives inp.dstBase bytesRead 0 divided ∧
      manifest = ("zip", "filename") :: buildManifest 0 divided := by
  unfold main at h
  by_cases h1 : inp.dstExists = true
  · rw [if_pos h1] at h
    by_cases h2 : inp.dstNonempty = true
    · rw [if_pos h2] at h; cases h
    · rw [if_neg h2] at h; exact runPipeline_ok_inv h
  · rw [if_neg h1] at h; exact runPipeline_ok_inv h

/-! ### Lemmas about the built archives and manifest -/

theorem buildArchives_getD_path (dstBase : String) (bytesRead : FileEntry → Nat)
    (j : Nat) (blocks : List (List FileEntry)) (i : Nat)
    (hi : i < (buildArchives dstBase bytesRead j blocks).length) :
    ((buildArchives dstBase bytesRead j blocks).getD i dummyArchive).path
      = ["zip", archiveFileName dstBase (j + i)] := by
  induction blocks generalizing j i with
  | nil => simp [buildArchives] at hi
  | cons block rest ih =>
    cases i with
    | zero => simp [buildArchives]
    | succ i =>
      rw [buildArchives, List.getD_cons_succ]
      have hi2 : i < (buildArchives dstBase bytesRead (j + 1) rest).length := by
        simpa [buildArchives] using hi
      rw [ih (j + 1) i hi2]
      have : j + 1 + i = j + (i + 1) := by omega
      rw [this]

theorem buildArchives_entry_names (dstBase : String) (bytesRead : FileEntry → Nat)
    (j : Nat) (blocks : List (List FileEntry)) :
    ((buildArchives dstBase bytesRead j blocks).map
        (fun a => a.entries.map Entry.name)).flatten
      = blocks.flatten.map fileName := by
  induction blocks generalizing j with
  | nil => simp [buildArchives]
  | cons block rest ih =>
    rw [buildArchives]
    simp only [List.map_cons, List.flatten_cons, List.flatten_cons, List.map_append,
      ih (j + 1)]
    congr 1
    simp [mkEntry, List.map_map]

theorem buildArchives_entry_meta (dstBase : String) (bytesRead : FileEntry → Nat)
    (j : Nat) (blocks : List (List FileEntry)) :
    ((buildArchives dstBase bytesRead j blocks).map
        (fun a => a.entries.map (fun e => (e.name, e.method, e.unixPermissions)))).flatten
      = blocks.flatten.map (fun f => (fileName f, CompressionMethod.stored, 0o755)) := by
  induction blocks generalizing j with
  | nil => simp [buildArchives]
  | cons block rest ih =>
    rw [buildArchives]
    simp only [List.map_cons, List.flatten_cons, List.map_append, ih (j + 1)]
    congr 1
    simp [mkEntry, List.map_map]

theorem buildManifest_snd (j : Nat) (blocks : List (List FileEntry)) :
    (buildManifest j blocks).map Prod.snd = blocks.flatten.map fileName := by
  induction blocks generalizing j with
  | nil => simp [buildManifest]
  | cons block rest ih =>
    rw [buildManifest]
    simp only [List.map_append, List.flatten_cons, ih (j + 1)]
    congr 1
    simp [List.map_map]

/-! ### Concrete inputs used by counterexamples and witnesses -/

/-- A two-byte file `in/a.txt`. -/
def wFileA : FileEntry :=
  { path := ["in", "a.txt"], content := [7, 8] }

/-- A one-byte file `in/b.txt`. -/
def wFileB : FileEntry :=
  { path := ["in", "b.txt"], content := [9] }

/-- The read oracle of a run in which every single `read` call happens to
return the whole file. -/
def okBytes : FileEntry → Nat :=
  fun f => f.content.length

/-- Fresh destination `out`, two matched files, chunk size 1. -/
def okInput : RunInput :=
  { dstExists := false, dstNonempty := false, dstBase := "out",
    files := [wFileA, wFileB], file_count_per_file := 1 }

/-- The archives `main` produces on `okInput`. -/
def okArchives : List Archive :=
  [ { name := "out_0.zip", path := ["zip", "out_0.zip"],
      entries := [{ name := "a.txt", data := [7, 8],
                    method := CompressionMethod.stored, unixPermissions := 0o755 }] },
    { name := "out_1.zip", path := ["zip", "out_1.zip"],
      entries := [{ name := "b.txt", data := [9],
                    method := CompressionMethod.stored, unixPermissions := 0o755 }] } ]

/-- The `results.csv` records `main` produces on `okInput`. -/
def okManifest : List (String × String) :=
  [("zip", "filename"), ("0.zip", "a.txt"), ("1.zip", "b.txt")]

theorem main_okInput_eval : main okInput okBytes = RunResult.ok okArchives okManifest := by
  have h1 : i32ToUsize 1 = 1 := by decide
  have hc : chunksList 1 [wFileA, wFileB] = [[wFileA], [wFileB]] := by
    simp [chunksList_cons, chunksList_nil]
  simp [main, okInput, okBytes, runPipeline, divide_files, h1, hc]
  simp [buildArchives, buildManifest, mkEntry, get_file_as_byte_vec, fileName,
    archiveFileName, manifestArchiveField, okArchives, okManifest, wFileA, wFileB,
    okBytes]
  decide

/-! ### Claim theorems -/

/-- C4: for every ordered list of `N` matched files and every chunk size
`K > 0`, the partitioner (`divide_files`, i.e. `slice::chunks`) succeeds and
produces exactly `⌈N/K⌉ = (N + K - 1) / K` partitions, partition `i`
(0-indexed) contains exactly `min K (N - i*K)` entries, and concatenating
the partitions in index order reproduces the input list with no reordering,
duplication, or omission. -/
theorem c4_partitioner_shape {α : Type} (files : List α) (k : Nat) (hk : 0 < k) :
    divide_files files k = some (chunksList k files) ∧
    (chunksList k files).length = (files.length + k - 1) / k ∧
    (∀ i, i < (chunksList k files).length →
      ((chunksList k files).getD i []).length = min k (files.length - i * k)) ∧
    (chunksList k files).flatten = files := by
  refine ⟨?_, chunksList_length k hk files,
    fun i hi => chunksList_getD_length k hk files i hi,
    chunksList_flatten k files⟩
  rw [divide_files, if_neg (Nat.pos_iff_ne_zero.mp hk)]

/-- Witness for C4 at `files = [10, 20, 30] : List Nat` and `K = 2`. -/
theorem c4_witness :
    0 < 2 ∧
    (divide_files ([10, 20, 30] : List Nat) 2 = some (chunksList 2 [10, 20, 30]) ∧
     (chunksList 2 ([10, 20, 30] : List Nat)).length
       = (([10, 20, 30] : List Nat).length + 2 - 1) / 2 ∧
     (∀ i, i < (chunksList 2 ([10, 20, 30] : List Nat)).length →
       ((chunksList 2 ([10, 20, 30] : List Nat)).getD i []).length
         = min 2 (([10, 20, 30] : List Nat).length - i * 2)) ∧
     (chunksList 2 ([10, 20, 30] : List Nat)).flatten = [10, 20, 30]) :=
  ⟨by decide, c4_partitioner_shape [10, 20, 30] 2 (by decide)⟩

/-- C6: if the destination directory exists and is non-empty, the run prints
the guard message and terminates with `Ok(())`: no archives, no manifest,
nothing written. -/
theorem c6_nonempty_dst_guard (inp : RunInput) (bytesRead : FileEntry → Nat)
    (hex : inp.dstExists = true) (hne : inp.dstNonempty = true) :
    main inp bytesRead = RunResult.okGuard "Destination folder is not empty." := by
  unfold main
  rw [if_pos hex, if_pos hne]

/-- Witness for C6: existing non-empty destination. -/
theorem c6_witness :
    ({ dstExists := true, dstNonempty := true, dstBase := "out",
       files := [wFileA], file_count_per_file := 1000 } : RunInput).dstExists = true ∧
    main { dstExists := true, dstNonempty := true, dstBase := "out",
           files := [wFileA], file_count_per_file := 1000 } okBytes
      = RunResult.okGuard "Destination folder is not empty." :=
  ⟨rfl, c6_nonempty_dst_guard _ okBytes rfl rfl⟩

/-- C5: if the destination directory exists but is empty, the guard is
passed yet the `zip` subdirectory is never created (creation happens only
in the `else` branch, when the destination does not exist), so as soon as
there is at least one matched file — and the chunk count does not make
`chunks` panic — the run fails with an I/O error when creating the archive
of partition 0 under `<dst>/zip/`. -/
theorem c5_existing_empty_dst_io_error (inp : RunInput) (bytesRead : FileEntry → Nat)
    (hex : inp.dstExists = true) (hne : inp.dstNonempty = false)
    (hfiles : inp.files ≠ [])
    (hk : i32ToUsize inp.file_count_per_file ≠ 0) :
    main inp bytesRead = RunResult.ioError 0 := by
  have hch : (chunksList (i32ToUsize inp.file_count_per_file) inp.files).isEmpty = false :=
    List.isEmpty_eq_false.mpr (chunksList_ne_nil _ _ hfiles)
  unfold main runPipeline
  rw [if_pos hex, if_neg (by simp [hne]), divide_files, if_neg hk]
  simp [hch]

/-- Witness for C5: existing empty destination, one matched file, default
chunk size 1000. -/
theorem c5_witness :
    ({ dstExists := true, dstNonempty := false, dstBase := "out",
       files := [wFileA], file_count_per_file := 1000 } : RunInput).files ≠ [] ∧
    i32ToUsize 1000 ≠ 0 ∧
    main { dstExists := true, dstNonempty := false, dstBase := "out",
           files := [wFileA], file_count_per_file := 1000 } okBytes
      = RunResult.ioError 0 :=
  ⟨by decide, by decide,
    c5_existing_empty_dst_io_error _ okBytes rfl rfl (by decide) (by decide)⟩

/-- C7: on every successful run, the archive of partition `i` is located at
`<dst>/zip/<dst-basename>_<i>.zip` (path components relative to the
destination directory), a name derived purely from the partition index. -/
theorem c7_archive_location (inp : RunInput) (bytesRead : FileEntry → Nat)
    (archives : List Archive) (manifest : List (String × String))
    (h : main inp bytesRead = RunResult.ok archives manifest)
    (i : Nat) (hi : i < archives.length) :
    (archives.getD i dummyArchive).path = ["zip", archiveFileName inp.dstBase i] := by
  obtain ⟨divided, hdiv, harch, hman⟩ := main_ok_inv h
  subst harch
  have := buildArchives_getD_path inp.dstBase bytesRead 0 divided i hi
  simpa using this

/-- Witness for C7: on `okInput` the archive of partition 1 lies at
`zip/out_1.zip`. -/
theorem c7_witness :
    main okInput okBytes = RunResult.ok okArchives okManifest ∧
    1 < okArchives.length ∧
    (okArchives.getD 1 dummyArchive).path = ["zip", archiveFileName okInput.dstBase 1] :=
  ⟨main_okInput_eval, by decide,
    c7_archive_location okInput okBytes okArchives okManifest main_okInput_eval 1 (by decide)⟩

/-- C8: on every successful run, the entry names of all archives,
concatenated in archive order, are exactly the base names of the matched
files in the enumerator's order (so order is preserved within each
archive), and the manifest data rows (everything after the header) carry
exactly one filename per matched file, in that same order. -/
theorem c8_order_preservation (inp : RunInput) (bytesRead : FileEntry → Nat)
    (archives : List Archive) (manifest : List (String × String))
    (h : main inp bytesRead = RunResult.ok archives manifest) :
    ((archives.map (fun a => a.entries.map Entry.name)).flatten
        = inp.files.map fileName) ∧
    (manifest.drop 1).map Prod.snd = inp.files.map fileName ∧
    (manifest.drop 1).length = inp.files.length := by
  obtain ⟨divided, hdiv, harch, hman⟩ := main_ok_inv h
  obtain ⟨hdc, hk⟩ := divide_files_eq_some hdiv
  subst harch hman hdc
  refine ⟨?_, ?_, ?_⟩
  · rw [buildArchives_entry_names, chunksList_flatten]
  · rw [List.drop_one, List.tail_cons, buildManifest_snd, chunksList_flatten]
  · have h2 : (buildManifest 0 (chunksList (i32ToUsize inp.file_count_per_file) inp.files)).map
        Prod.snd = inp.files.map fileName := by
      rw [buildManifest_snd, chunksList_flatten]
    have h3 := congrArg List.length h2
    simpa using h3

/-- Witness for C8 on `okInput`. -/
theorem c8_witness :
    main okInput okBytes = RunResult.ok okArchives okManifest ∧
    (((okArchives.map (fun a => a.entries.map Entry.name)).flatten
        = okInput.files.map fileName) ∧
     (okManifest.drop 1).map Prod.snd = okInput.files.map fileName ∧
     (okManifest.drop 1).length = okInput.files.length) :=
  ⟨main_okInput_eval,
    c8_order_preservation okInput okBytes okArchives okManifest main_okInput_eval⟩

/-- C9: on every successful run, each file is written as one entry named by
the file's base name, with the stored (uncompressed) method and the fixed
permission mask `0o755`, regardless of the source file's permissions (the
model carries no source permissions at all: the mask is a constant of the
code). -/
theorem c9_entry_options (inp : RunInput) (bytesRead : FileEntry → Nat)
    (archives : List Archive) (manifest : List (String × String))
    (h : main inp bytesRead = RunResult.ok archives manifest) :
    (archives.map
        (fun a => a.entries.map (fun e => (e.name, e.method, e.unixPermissions)))).flatten
      = inp.files.map (fun f => (fileName f, CompressionMethod.stored, 0o755)) := by
  obtain ⟨divided, hdiv, harch, hman⟩ := main_ok_inv h
  obtain ⟨hdc, hk⟩ := divide_files_eq_some hdiv
  subst harch hdc
  rw [buildArchives_entry_meta, chunksList_flatten]

/-- Witness for C9 on `okInput`. -/
theorem c9_witness :
    main okInput okBytes = RunResult.ok okArchives okManifest ∧
    (okArchives.map
        (fun a => a.entries.map (fun e => (e.name, e.method, e.unixPermissions)))).flatten
      = okInput.files.map (fun f => (fileName f, CompressionMethod.stored, 0o755)) :=
  ⟨main_okInput_eval,
    c9_entry_options okInput okBytes okArchives okManifest main_okInput_eval⟩

/-- C10: when zero files match and the destination guard passes (the
destination either does not exist or exists empty), and the chunk size does
not make `chunks` panic, the run succeeds with zero archives and a manifest
holding only the header record `zip,filename`. -/
theorem c10_zero_files (inp : RunInput) (bytesRead : FileEntry → Nat)
    (hfiles : inp.files = [])
    (hguard : inp.dstExists = false ∨ inp.dstNonempty = false)
    (hk : i32ToUsize inp.file_count_per_file ≠ 0) :
    main inp bytesRead = RunResult.ok [] [("zip", "filename")] := by
  have hpipe : ∀ z, runPipeline inp bytesRead z = RunResult.ok [] [("zip", "filename")] := by
    intro z
    unfold runPipeline
    rw [divide_files, hfiles, if_neg hk, chunksList_nil]
    simp [buildArchives, buildManifest]
  unfold main
  rcases hguard with hg | hg
  · rw [if_neg (by simp [hg])]
    exact hpipe true
  · by_cases hex : inp.dstExists = true
    · rw [if_pos hex, if_neg (by simp [hg])]
      exact hpipe false
    · rw [if_neg hex]
      exact hpipe true

/-- Witness for C10: no matched files, fresh destination, chunk size 1000. -/
theorem c10_witness :
    ({ dstExists := false, dstNonempty := false, dstBase := "out",
       files := [], file_count_per_file := 1000 } : RunInput).files = [] ∧
    i32ToUsize 1000 ≠ 0 ∧
    main { dstExists := false, dstNonempty := false, dstBase := "out",
           files := [], file_count_per_file := 1000 } okBytes
      = RunResult.ok [] [("zip", "filename")] :=
  ⟨rfl, by decide, c10_zero_files _ okBytes rfl (Or.inl rfl) (by decide)⟩

/-- Fresh destination `out`, one matched file, default chunk size 1000. -/
def c1Input : RunInput :=
  { dstExists := false, dstNonempty := false, dstBase := "out",
    files := [wFileA], file_count_per_file := 1000 }

/-- C1: REFUTED on the code. On a completed run the archive that physically
contains the entry `a.txt` is named `out_0.zip` (line 93 of `main.rs`,
`archiveFileName`), but the data row written to `results.csv` carries
`manifestArchiveField 0 = "0.zip"` (line 104 writes `format!("{}.zip", i)`,
dropping the destination base name and the underscore), so the archive
field of the row is NOT the name of the archive that contains the entry. -/
theorem c1_manifest_archive_field_mismatch :
    main c1Input okBytes =
      RunResult.ok
        [{ name := "out_0.zip", path := ["zip", "out_0.zip"],
           entries := [{ name := "a.txt", data := [7, 8],
                         method := CompressionMethod.stored, unixPermissions := 0o755 }] }]
        [("zip", "filename"), ("0.zip", "a.txt")] ∧
    manifestArchiveField 0 = "0.zip" ∧
    archiveFileName "out" 0 = "out_0.zip" ∧
    manifestArchiveField 0 ≠ archiveFileName "out" 0 := by
  have h1 : i32ToUsize 1000 = 1000 := by decide
  have hc : chunksList 1000 [wFileA] = [[wFileA]] := by
    simp [chunksList_cons, chunksList_nil]
  refine ⟨?_, by decide, by decide, by decide⟩
  simp [main, c1Input, okBytes, runPipeline, divide_files, h1, hc]
  simp [buildArchives, buildManifest, mkEntry, get_file_as_byte_vec, fileName,
    archiveFileName, manifestArchiveField, wFileA, okBytes]
  decide

/-- Fresh destination `out`, two matched files, `--file-count-per-file -1`. -/
def c2Input : RunInput :=
  { dstExists := false, dstNonempty := false, dstBase := "out",
    files := [wFileA, wFileB], file_count_per_file := -1 }

/-- C2: REFUTED on the code for negative `K`. `clap` parses any `i32` and
`main` casts it with `as usize` (line 74): `-1` wraps to `2^64 - 1`, so no
error is reported — `divide_files` silently yields the single partition
holding every file and the run completes successfully, a different
partitioning from any positive `K` the caller could have meant. (For
`K = 0` the cast gives `0` and `chunks(0)` panics, so only that half of
the claim holds.) -/
theorem c2_negative_k_silently_coerced :
    i32ToUsize (-1) = 18446744073709551615 ∧
    divide_files [wFileA, wFileB] (i32ToUsize (-1)) = some [[wFileA, wFileB]] ∧
    main c2Input okBytes =
      RunResult.ok
        [{ name := "out_0.zip", path := ["zip", "out_0.zip"],
           entries := [{ name := "a.txt", data := [7, 8],
                         method := CompressionMethod.stored, unixPermissions := 0o755 },
                       { name := "b.txt", data := [9],
                         method := CompressionMethod.stored, unixPermissions := 0o755 }] }]
        [("zip", "filename"), ("0.zip", "a.txt"), ("0.zip", "b.txt")] ∧
    i32ToUsize 0 = 0 ∧
    divide_files [wFileA, wFileB] (i32ToUsize 0) = none := by
  have h1 : i32ToUsize (-1) = 18446744073709551615 := by decide
  have h0 : i32ToUsize 0 = 0 := by decide
  have hc : chunksList 18446744073709551615 [wFileA, wFileB] = [[wFileA, wFileB]] := by
    rw [chunksList_cons, List.take_of_length_le (by decide),
      List.drop_of_length_le (by decide), chunksList_nil]
  refine ⟨h1, ?_, ?_, h0, ?_⟩
  · rw [h1, divide_files, if_neg (by decide), hc]
  · simp [main, c2Input, okBytes, runPipeline, divide_files, h1, hc]
    simp [buildArchives, buildManifest, mkEntry, get_file_as_byte_vec, fileName,
      archiveFileName, manifestArchiveField, wFileA, wFileB, okBytes]
    decide
  · rw [h0, divide_files, if_pos rfl]

/-- C3: REFUTED on the code. `get_file_as_byte_vec` sizes its buffer to the
file length but issues a SINGLE `Read::read` call and discards the count
that call returns (line 40, `f.read(&mut buffer)?;`). The `Read` contract
allows the call to return any `n ≤ len`; when `n` is less than the file
length the function nevertheless returns `Ok` with the unread tail still
zero — a strict prefix of the real content padded with zeros, neither the
full content nor an I/O error — and the pipeline stores exactly those
bytes in the archive entry (`mkEntry`). At a 2-byte file `[7, 8]` with the
legal read outcome `n = 1` the stored bytes are `[7, 0] ≠ [7, 8]`. -/
theorem c3_short_read_zero_pads :
    (1 : Nat) ≤ ([7, 8] : List Nat).length ∧
    get_file_as_byte_vec [7, 8] 1 = [7, 0] ∧
    get_file_as_byte_vec [7, 8] 1 ≠ [7, 8] ∧
    (mkEntry (fun _ => 1) wFileA).data = [7, 0] := by
  decide

end Divisioner
